import Mathlib

/-!
# PuckInsights — verification of the descriptive-statistics & outlier-slicer scripts

Shallow embedding of the pandas/scipy scripts under `src/`:

* `clean_hockey_df` (`exporatory_analysis_1.py` 8–21 and
  `initial_data_wrangling.py` 12–22, identical semantics): the zero-fill
  cleaning policy;
* the cleaning inside `hockey_overview` (`exploratory_analysis_function.py`
  7–12): the drop-NaN cleaning policy;
* `points_summary` (`exporatory_analysis_1.py` 27–46) and the summary dict of
  `hockey_overview` (`exploratory_analysis_function.py` 15–28);
* `points_groups` (`exporatory_analysis_1.py` 52–79) and the slice section of
  `hockey_overview` (`exploratory_analysis_function.py` 30–42);
* `ensure_points_per_season` (`nhl_seasons_visuals.py` 10–22).

Modelling conventions: pandas floats that can be NaN are `Option ℚ`
(`none` = NaN); Python exceptions are the error side of `Except`;
`Series.quantile` uses its default linear interpolation between order
statistics, written out explicitly below.
-/

namespace PuckInsights

/-- A raw cell of the CSV table: missing (pandas NaN), a numeric value, or a
non-numeric string.  Numeric text is modelled as already parsed to `num`
(the CSV reader parses it); `txt` holds a value that fails numeric coercion. -/
inductive Cell where
  | na : Cell
  | num : ℚ → Cell
  | txt : String → Cell
  deriving DecidableEq, Repr

/-- `pd.isna` on one raw cell. -/
def Cell.isNa : Cell → Bool
  | .na => true
  | _ => false

/-- `pd.to_numeric(_, errors='coerce')` on one cell: numeric values pass
through, everything else becomes NaN (`none`). -/
def Cell.toNumeric : Cell → Option ℚ
  | .num q => some q
  | _ => none

/-- A record with the four columns the scripts keep (`year`, `player`,
`team`, `points`); `α` is the type of the `points` column: raw `Cell`
before cleaning, `ℤ` after the zero-fill cleaning (`astype(int)`), `ℚ`
after the drop-NaN cleaning (float column). -/
structure RowG (α : Type) where
  year : Cell
  player : Cell
  team : Cell
  points : α
  deriving DecidableEq, Repr

abbrev RawRow := RowG Cell
abbrev Row := RowG ℤ
abbrev RowB := RowG ℚ

/-- A raw input table: whether the (whitespace-stripped) header contains a
`points` column, and the rows.  Column-name stripping
(`df.columns.str.strip()`) is modelled by `hasPointsCol` referring to the
stripped name. -/
structure RawTable where
  hasPointsCol : Bool
  rows : List RawRow
  deriving DecidableEq, Repr

/-- The Python exceptions the modelled code can raise:
`KeyError("'points' column not found")` and
`ValueError: cannot convert float NaN to integer` (from `int(nan)`). -/
inductive PyError where
  | keyError_points : PyError
  | valueError_intOfNaN : PyError
  deriving DecidableEq, Repr

instance exceptDecEq {ε α : Type} [DecidableEq ε] [DecidableEq α] :
    DecidableEq (Except ε α) := fun a b =>
  match a, b with
  | .error e, .error e' =>
      if h : e = e' then .isTrue (by rw [h]) else .isFalse (by simp [h])
  | .ok x, .ok y =>
      if h : x = y then .isTrue (by rw [h]) else .isFalse (by simp [h])
  | .error _, .ok _ => .isFalse (by simp)
  | .ok _, .error _ => .isFalse (by simp)

/-- Python `int(_)` / numpy `astype(int)` on a finite float: truncation
toward zero. -/
def pyInt (q : ℚ) : ℤ := if 0 ≤ q then ⌊q⌋ else ⌈q⌉

/-- A row whose four cells are all NaN; `dropna(how='all')` drops these. -/
def rowIsAllNa (r : RawRow) : Bool :=
  r.year.isNa && r.player.isNa && r.team.isNa && r.points.isNa

/-- The per-row effect of the zero-fill coercion
`pd.to_numeric(df['points'], errors='coerce').fillna(0).astype(int)`. -/
def cleanRowA (r : RawRow) : Row :=
  { year := r.year, player := r.player, team := r.team,
    points := pyInt ((Cell.toNumeric r.points).getD 0) }

/-- `clean_hockey_df` (`exporatory_analysis_1.py` 8–21 and
`initial_data_wrangling.py` 12–22; the two definitions differ only in the
order of the column check, not in behaviour): copy, strip column names,
drop all-NaN rows, raise `KeyError` if `points` is absent, else coerce
`points` to numeric, fill NaN with 0 and cast to int. -/
def clean_hockey_df (t : RawTable) : Except PyError (List Row) :=
  let kept := t.rows.filter fun r => ! rowIsAllNa r
  if t.hasPointsCol then .ok (kept.map cleanRowA) else .error .keyError_points

/-- The cleaning step inside `hockey_overview`
(`exploratory_analysis_function.py` 8–12): coerce `points` to numeric and
drop the rows whose coerced value is NaN (`dropna(subset=['points'])`).
Reading `df['points']` from a frame without that column raises `KeyError`. -/
def overview_clean (t : RawTable) : Except PyError (List RowB) :=
  if t.hasPointsCol then
    .ok (t.rows.filterMap fun r =>
      (Cell.toNumeric r.points).map fun q =>
        { year := r.year, player := r.player, team := r.team, points := q })
  else .error .keyError_points

/-- Re-embed a zero-fill-cleaned row as a raw row: the integer `points`
value read back as a numeric cell (used to state idempotence of cleaning). -/
def rawOfClean (r : Row) : RawRow :=
  { year := r.year, player := r.player, team := r.team,
    points := .num (r.points : ℚ) }

/-- Re-embed a cleaned dataset as a raw table (its header has `points`). -/
def rawTableOfClean (d : List Row) : RawTable :=
  { hasPointsCol := true, rows := d.map rawOfClean }

/-! ## Descriptive statistics -/

/-- Ascending sort of the data, as done inside `Series.quantile`. -/
def sortQ (xs : List ℚ) : List ℚ := List.insertionSort (· ≤ ·) xs

/-- Linear interpolation between order statistics at rational position `h`:
`x i + (h − i)·(x (i+1) − x i)` with `i = ⌊h⌋`; the conventional
`interpolation='linear'` rule of `Series.quantile`. -/
def interpAt (xs : List ℚ) (h : ℚ) : ℚ :=
  xs.getD (⌊h⌋).toNat 0 +
    (h - (((⌊h⌋).toNat : ℕ) : ℚ)) *
      (xs.getD ((⌊h⌋).toNat + 1) (xs.getD (⌊h⌋).toNat 0) -
        xs.getD (⌊h⌋).toNat 0)

/-- `Series.quantile(p)` of a non-empty series: interpolate the sorted
values at position `p·(n−1)`. -/
def quantileOf (xs : List ℚ) (p : ℚ) : ℚ :=
  interpAt (sortQ xs) (p * ((xs.length : ℚ) - 1))

/-- `Series.quantile(p)`: NaN (`none`) on an empty series. -/
def quantile? (xs : List ℚ) (p : ℚ) : Option ℚ :=
  if xs = [] then none else some (quantileOf xs p)

/-- `Series.mean()` of a non-empty series. -/
def meanQ (xs : List ℚ) : ℚ := xs.sum / (xs.length : ℚ)

/-- `Series.mean()`: NaN on an empty series. -/
def mean? (xs : List ℚ) : Option ℚ := if xs = [] then none else some (meanQ xs)

/-- `Series.var()` (sample variance, pandas default `ddof=1`): NaN (`none`)
when the series has fewer than two values — including the one-element
series, where `0/0` is NaN — else `Σ (x − mean)² / (n − 1)`. -/
def var? (xs : List ℚ) : Option ℚ :=
  if xs.length < 2 then none
  else some ((xs.map fun x => (x - meanQ xs) ^ 2).sum / ((xs.length : ℚ) - 1))

/-- `Series.std()` (`ddof=1`): the square root of the sample variance. -/
noncomputable def std? (xs : List ℚ) : Option ℝ :=
  (var? xs).map fun v => Real.sqrt (v : ℝ)

/-- View an integer `points` column as the rational series pandas computes
statistics on. -/
def toQ (pts : List ℤ) : List ℚ := pts.map fun p => Int.cast p

/-- The summary dict of `points_summary` (`exporatory_analysis_1.py`).
`mean` and `variance` are Python floats that may be NaN (`none`); the
`int(...)`-cast entries are integers.  The `trimmed_mean` and `mad` entries
delegate to `scipy.stats` (code outside this repository); no claim refers
to them and they are not modelled. -/
structure SummaryA where
  count : ℕ
  mean : Option ℚ
  median : ℤ
  variance : Option ℚ
  iqr : ℤ
  lower_bound : ℤ
  upper_bound : ℤ
  deriving DecidableEq, Repr

/-- `points_summary` (`exporatory_analysis_1.py` 27–46).  On an empty series
every quantile/mean is NaN and the first `int(...)` cast evaluated in the
dict literal — `int(pts.median())` — raises
`ValueError: cannot convert float NaN to integer`; the error branch models
exactly that case.  On a non-empty integer series no cast can fail. -/
def points_summary (pts : List ℤ) : Except PyError SummaryA :=
  if pts = [] then .error .valueError_intOfNaN
  else
    let xs : List ℚ := toQ pts
    let q1 := quantileOf xs (1/4)
    let q3 := quantileOf xs (3/4)
    let iqr := q3 - q1
    .ok { count := pts.length
          mean := some (meanQ xs)
          median := pyInt (quantileOf xs (1/2))
          variance := var? xs
          iqr := pyInt iqr
          lower_bound := pyInt (q1 - 3/2 * iqr)
          upper_bound := pyInt (q3 + 3/2 * iqr) }

/-- The summary dict built inside `hockey_overview`
(`exploratory_analysis_function.py` 15–28): the same statistics but without
`int` casts, so every entry is a float and is NaN (`none`) exactly when
pandas produces NaN (empty series; `n < 2` for the variance).
`trimmed_mean`/`mad` again delegate to scipy and are not modelled. -/
structure SummaryB where
  count : ℕ
  mean : Option ℚ
  median : Option ℚ
  variance : Option ℚ
  iqr : Option ℚ
  lower_bound : Option ℚ
  upper_bound : Option ℚ
  deriving DecidableEq, Repr

def overview_summary (pts : List ℚ) : SummaryB :=
  { count := pts.length
    mean := mean? pts
    median := quantile? pts (1/2)
    variance := var? pts
    iqr := match quantile? pts (1/4), quantile? pts (3/4) with
      | some a, some b => some (b - a)
      | _, _ => none
    lower_bound := match quantile? pts (1/4), quantile? pts (3/4) with
      | some a, some b => some (a - 3/2 * (b - a))
      | _, _ => none
    upper_bound := match quantile? pts (1/4), quantile? pts (3/4) with
      | some a, some b => some (b + 3/2 * (b - a))
      | _, _ => none }

/-! ## Outlier slices -/

/-- `Series.max()` as a total function: `none` on the empty series
(pandas yields NaN there). -/
def listMax {α : Type} [LinearOrder α] : List α → Option α
  | [] => none
  | x :: xs => some ((listMax xs).elim x (max x))

/-- `Series.min()` as a total function: `none` on the empty series. -/
def listMin {α : Type} [LinearOrder α] : List α → Option α
  | [] => none
  | x :: xs => some ((listMin xs).elim x (min x))

/-- Numeric value of a cell with a default, for sort keys. -/
def cellNum (c : Cell) (d : ℚ) : ℚ := match c with | .num q => q | _ => d

/-- Lexicographic comparison of sort-key triples. -/
def keyLe (a b : ℚ × ℚ × ℚ) : Prop :=
  a.1 < b.1 ∨ (a.1 = b.1 ∧ (a.2.1 < b.2.1 ∨ (a.2.1 = b.2.1 ∧ a.2.2 ≤ b.2.2)))

instance keyLe.instDecidable (a b : ℚ × ℚ × ℚ) : Decidable (keyLe a b) := by
  unfold keyLe; infer_instance

/-- Stable sort by a key triple (pandas `sort_values` is stable). -/
def sortByKey {α : Type} (k : α → ℚ × ℚ × ℚ) (l : List α) : List α :=
  List.insertionSort (fun a b => keyLe (k a) (k b)) l

/-- Key for `sort_values(['year','points'], ascending=False)`: year
descending then points descending; pandas places NaN keys last whatever the
direction, hence the leading flag. -/
def upperKeyG {α : Type} (tq : α → ℚ) (r : RowG α) : ℚ × ℚ × ℚ :=
  (if Cell.isNa r.year then 1 else 0, -(cellNum r.year 0), -(tq r.points))

/-- Key for `sort_values(['points','year'], ascending=True)`. -/
def lowerKeyG {α : Type} (tq : α → ℚ) (r : RowG α) : ℚ × ℚ × ℚ :=
  (tq r.points, if Cell.isNa r.year then 1 else 0, cellNum r.year 0)

/-- The five slices returned by `points_groups` / the slice section of
`hockey_overview`.  `keep_cols` keeps exactly the four `RowG` fields, so a
slice is simply a list of rows. -/
structure GroupsG (α : Type) where
  upper_players : List (RowG α)
  lower_players : List (RowG α)
  top_players : List (RowG α)
  bottom_players : List (RowG α)
  bottom_nonzero : List (RowG α)
  deriving DecidableEq, Repr

/-- `points_groups` (`exporatory_analysis_1.py` 52–79).  The upper/lower
slices filter on the (integer) bounds of the given summary and are sorted;
`int(pts.max())` / `int(pts.min())` raise `ValueError` on an empty frame
(`int(nan)`), modelled by the error branch; `bottom_nonzero` is the slice
tied at the least nonzero value when `(pts != 0).any()`, else the empty
list. -/
def points_groups (d : List Row) (s : SummaryA) : Except PyError (GroupsG ℤ) :=
  let pts := d.map RowG.points
  let upper := sortByKey (upperKeyG fun p : ℤ => (p : ℚ))
    (d.filter fun r => s.upper_bound ≤ r.points)
  let lower := sortByKey (lowerKeyG fun p : ℤ => (p : ℚ))
    (d.filter fun r => r.points ≤ s.lower_bound)
  match listMax pts, listMin pts with
  | some mx, some mn =>
      .ok { upper_players := upper
            lower_players := lower
            top_players := d.filter fun r => r.points = mx
            bottom_players := d.filter fun r => r.points = mn
            bottom_nonzero :=
              if pts.any fun p => p ≠ 0 then
                (listMin (pts.filter fun p => p ≠ 0)).elim [] fun m0 =>
                  d.filter fun r => r.points = m0
              else [] }
  | _, _ => .error .valueError_intOfNaN

/-- A float-series comparison `x ≥ b` against a possibly-NaN bound:
comparisons with NaN are `False` in pandas. -/
def geNaN (b? : Option ℚ) (x : ℚ) : Prop :=
  match b? with | some b => b ≤ x | none => False

/-- A float-series comparison `x ≤ b` against a possibly-NaN bound. -/
def leNaN (b? : Option ℚ) (x : ℚ) : Prop :=
  match b? with | some b => x ≤ b | none => False

instance geNaN.instDecidable (b? : Option ℚ) (x : ℚ) : Decidable (geNaN b? x) := by
  unfold geNaN; cases b? <;> infer_instance

instance leNaN.instDecidable (b? : Option ℚ) (x : ℚ) : Decidable (leNaN b? x) := by
  unfold leNaN; cases b? <;> infer_instance

/-- The slice section of `hockey_overview`
(`exploratory_analysis_function.py` 30–42 and 69–75).  No `int` casts here:
`pts.max()` on an empty frame is NaN and `pts == NaN` is everywhere false,
so every slice of an empty frame is empty and nothing raises;
`bottom_no_zero` is the empty frame when no nonzero value exists (reported
as `[]` at line 74–75). -/
def overview_groups (d : List RowB) (s : SummaryB) : GroupsG ℚ :=
  let pts := d.map RowG.points
  { upper_players := sortByKey (upperKeyG id)
      (d.filter fun r => geNaN s.upper_bound r.points)
    lower_players := sortByKey (lowerKeyG id)
      (d.filter fun r => leNaN s.lower_bound r.points)
    top_players := (listMax pts).elim [] fun mx =>
      d.filter fun r => r.points = mx
    bottom_players := (listMin pts).elim [] fun mn =>
      d.filter fun r => r.points = mn
    bottom_nonzero := (listMin (pts.filter fun p => p ≠ 0)).elim [] fun m0 =>
      d.filter fun r => r.points = m0 }

/-! ## Seasons helper (`nhl_seasons_visuals.py`) -/

/-- Input row for `ensure_points_per_season`; a missing `to_year` column is
the all-NaN case of `out.get("to_year", np.nan)`. -/
structure SeasonRowIn where
  points : Cell
  year : Cell
  to_year : Cell
  deriving DecidableEq, Repr

/-- Output row of `ensure_points_per_season`. -/
structure SeasonRowOut where
  points : ℚ
  year : ℚ
  to_year : Option ℚ
  years_played : ℚ
  points_per_season : ℚ
  deriving DecidableEq, Repr

/-- `ensure_points_per_season` (`nhl_seasons_visuals.py` 10–22): coerce
`points`, `year`, `to_year` to numeric; drop rows where `points` or `year`
is NaN; `end_year = to_year.fillna(year)`;
`years_played = (end_year - year + 1).clip(lower=1)`;
`points_per_season = points / years_played`. -/
def ensure_points_per_season (rows : List SeasonRowIn) : List SeasonRowOut :=
  rows.filterMap fun r =>
    match r.points.toNumeric, r.year.toNumeric with
    | some p, some y =>
        let ty := r.to_year.toNumeric
        let endYear := ty.getD y
        let yearsPlayed := max (endYear - y + 1) 1
        some { points := p, year := y, to_year := ty,
               years_played := yearsPlayed,
               points_per_season := p / yearsPlayed }
    | _, _ => none

/-! ## Concrete example data (used to instantiate the theorems) -/

/-- A raw row with a numeric `points` cell. -/
def rowNum : RawRow :=
  { year := .num 2000, player := .txt "A", team := .txt "B", points := .num 50 }

/-- The zero-fill cleaning of `rowNum`. -/
def rowNumClean : Row :=
  { year := .num 2000, player := .txt "A", team := .txt "B", points := 50 }

/-- A raw row whose `points` cell fails numeric coercion. -/
def rowBad : RawRow :=
  { year := .num 2000, player := .txt "A", team := .txt "B", points := .txt "abc" }

/-- The zero-fill cleaning of `rowBad`: coercion fails, `fillna(0)` puts 0. -/
def rowBadClean : Row :=
  { year := .num 2000, player := .txt "A", team := .txt "B", points := 0 }

/-- A table without a `points` column. -/
def tNoPoints : RawTable := { hasPointsCol := false, rows := [] }

/-- A one-row table with a numeric `points` value. -/
def tNum : RawTable := { hasPointsCol := true, rows := [rowNum] }

/-- A one-row table whose only `points` value fails coercion. -/
def tBad : RawTable := { hasPointsCol := true, rows := [rowBad] }

/-- The drop-NaN cleaning of `rowNum` (float `points` column). -/
def rowNumB : RowB :=
  { year := .num 2000, player := .txt "A", team := .txt "B", points := 50 }

/-- An arbitrary zero-fill summary used to instantiate slice theorems. -/
def sEx : SummaryA :=
  { count := 1, mean := some 50, median := 50, variance := none, iqr := 0,
    lower_bound := -100, upper_bound := 100 }

/-- An arbitrary drop-NaN summary used to instantiate slice theorems. -/
def sExB : SummaryB :=
  { count := 1, mean := some 50, median := some 50, variance := none,
    iqr := some 0, lower_bound := some (-100), upper_bound := some 100 }

/-- The slice record `points_groups [rowNumClean] sEx` produces. -/
def gEx : GroupsG ℤ :=
  { upper_players := [], lower_players := [], top_players := [rowNumClean],
    bottom_players := [rowNumClean], bottom_nonzero := [rowNumClean] }

/-- An integer row with the given points value (year/player/team fixed). -/
def rowOf (p : ℤ) : Row :=
  { year := .num 2000, player := .txt "P", team := .txt "T", points := p }

/-- A float row with the given points value. -/
def rowBOf (p : ℚ) : RowB :=
  { year := .num 2000, player := .txt "P", team := .txt "T", points := p }

/-- The spec's worked example sequence `[0, 2, 2, 5, 100]` as a float series. -/
def ptsEx : List ℚ := [0, 2, 2, 5, 100]

/-- The worked example as a zero-fill-cleaned dataset. -/
def dEx : List Row := [rowOf 0, rowOf 2, rowOf 2, rowOf 5, rowOf 100]

/-- The worked example as a drop-NaN-cleaned dataset. -/
def dExB : List RowB := [rowBOf 0, rowBOf 2, rowBOf 2, rowBOf 5, rowBOf 100]

/-- `points_summary` on the worked example: `q1 = 2`, `q3 = 5`, `iqr = 3`,
`lower = int(-2.5) = -2`, `upper = int(9.5) = 9`. -/
def sEx5 : SummaryA :=
  { count := 5, mean := some (109/5), median := 2, variance := some (9571/5),
    iqr := 3, lower_bound := -2, upper_bound := 9 }

/-- `points_groups dEx sEx5`. -/
def gEx5 : GroupsG ℤ :=
  { upper_players := [rowOf 100], lower_players := [],
    top_players := [rowOf 100], bottom_players := [rowOf 0],
    bottom_nonzero := [rowOf 2, rowOf 2] }

/-- A season input row with numeric `points`/`year` and missing `to_year`. -/
def seasonIn : SeasonRowIn := { points := .num 100, year := .num 2000, to_year := .na }

/-- The output row `ensure_points_per_season` produces from `seasonIn`. -/
def seasonOut : SeasonRowOut :=
  { points := 100, year := 2000, to_year := none, years_played := 1,
    points_per_season := 100 }

/-! ## Helper lemmas -/

theorem pyInt_intCast (p : ℤ) : pyInt (p : ℚ) = p := by
  unfold pyInt
  split
  · exact Int.floor_intCast p
  · exact Int.ceil_intCast p

theorem sub_one_lt_pyInt (q : ℚ) : q - 1 < (pyInt q : ℚ) := by
  unfold pyInt
  split
  · exact_mod_cast Int.sub_one_lt_floor q
  · have h := Int.le_ceil q
    linarith

theorem pyInt_lt_add_one (q : ℚ) : (pyInt q : ℚ) < q + 1 := by
  unfold pyInt
  split
  · have h := Int.floor_le q
    linarith
  · exact_mod_cast Int.ceil_lt_add_one q

theorem pyInt_le_self_of_nonneg {q : ℚ} (h : 0 ≤ q) : (pyInt q : ℚ) ≤ q := by
  unfold pyInt
  rw [if_pos h]
  exact_mod_cast Int.floor_le q

theorem one_le_of_pyInt_pos {q : ℚ} (h0 : 0 ≤ q) (h : 0 < pyInt q) : 1 ≤ q := by
  have h1 : (1 : ℚ) ≤ (pyInt q : ℚ) := by exact_mod_cast h
  have h2 := pyInt_le_self_of_nonneg h0
  linarith

theorem sortQ_perm (xs : List ℚ) : List.Perm (sortQ xs) xs :=
  List.perm_insertionSort _ xs

theorem sortQ_length (xs : List ℚ) : (sortQ xs).length = xs.length :=
  (sortQ_perm xs).length_eq

theorem sortQ_sorted (xs : List ℚ) : (sortQ xs).Sorted (· ≤ ·) :=
  List.sorted_insertionSort _ xs

theorem sortQ_mem {xs : List ℚ} {x : ℚ} : x ∈ sortQ xs ↔ x ∈ xs :=
  (sortQ_perm xs).mem_iff

theorem sorted_getD_le_getD {xs : List ℚ} (hs : xs.Sorted (· ≤ ·))
    {i j : ℕ} (hij : i ≤ j) (hj : j < xs.length) (d d' : ℚ) :
    xs.getD i d ≤ xs.getD j d' := by
  have hi : i < xs.length := Nat.lt_of_le_of_lt hij hj
  rw [List.getD_eq_get _ _ hi, List.getD_eq_get _ _ hj]
  exact hs.rel_get_of_le (Fin.mk_le_mk.mpr hij)

theorem toNatFloor_lt_of_le {h : ℚ} {n : ℕ} (h0 : 0 ≤ h)
    (hub : h ≤ (n : ℚ) - 1) : (⌊h⌋).toNat < n := by
  have hf : 0 ≤ ⌊h⌋ := Int.floor_nonneg.mpr h0
  have h1 : (⌊h⌋ : ℚ) ≤ (n : ℚ) - 1 := le_trans (Int.floor_le h) hub
  have h2 : ⌊h⌋ ≤ (n : ℤ) - 1 := by exact_mod_cast h1
  omega

theorem toNatFloor_cast {h : ℚ} (h0 : 0 ≤ h) :
    (((⌊h⌋).toNat : ℕ) : ℚ) = (⌊h⌋ : ℚ) := by
  exact_mod_cast Int.toNat_of_nonneg (Int.floor_nonneg.mpr h0)

theorem getD_le_interpAt {xs : List ℚ} (hs : xs.Sorted (· ≤ ·)) {h : ℚ}
    (h0 : 0 ≤ h) : xs.getD (⌊h⌋).toNat 0 ≤ interpAt xs h := by
  unfold interpAt
  set i := (⌊h⌋).toNat with hidef
  set a := xs.getD i 0 with hadef
  set b := xs.getD (i + 1) a with hbdef
  have hfrac : 0 ≤ h - ((i : ℕ) : ℚ) := by
    have hcast : ((i : ℕ) : ℚ) = (⌊h⌋ : ℚ) := toNatFloor_cast h0
    have hfl := Int.floor_le h
    rw [hcast]
    linarith
  have hab : a ≤ b := by
    by_cases hbn : i + 1 < xs.length
    · rw [hadef, hbdef]
      exact sorted_getD_le_getD hs (Nat.le_succ i) hbn 0 a
    · rw [hbdef, List.getD_eq_default _ _ (Nat.le_of_not_lt hbn)]
  nlinarith [mul_nonneg hfrac (sub_nonneg.mpr hab)]

theorem interpAt_le_getD_succ {xs : List ℚ} (hs : xs.Sorted (· ≤ ·)) {h : ℚ}
    (h0 : 0 ≤ h) :
    interpAt xs h ≤ xs.getD ((⌊h⌋).toNat + 1) (xs.getD (⌊h⌋).toNat 0) := by
  unfold interpAt
  set i := (⌊h⌋).toNat with hidef
  set a := xs.getD i 0 with hadef
  set b := xs.getD (i + 1) a with hbdef
  have hfrac : h - ((i : ℕ) : ℚ) < 1 := by
    have hcast : ((i : ℕ) : ℚ) = (⌊h⌋ : ℚ) := toNatFloor_cast h0
    have hfl := Int.lt_floor_add_one h
    rw [hcast]
    linarith
  have hab : a ≤ b := by
    by_cases hbn : i + 1 < xs.length
    · rw [hadef, hbdef]
      exact sorted_getD_le_getD hs (Nat.le_succ i) hbn 0 a
    · rw [hbdef, List.getD_eq_default _ _ (Nat.le_of_not_lt hbn)]
  nlinarith [mul_nonneg (sub_nonneg.mpr (le_of_lt hfrac)) (sub_nonneg.mpr hab)]

theorem interpAt_mono {xs : List ℚ} (hs : xs.Sorted (· ≤ ·)) {h h' : ℚ}
    (h0 : 0 ≤ h) (hhh : h ≤ h') (hub : h' ≤ (xs.length : ℚ) - 1) :
    interpAt xs h ≤ interpAt xs h' := by
  have h0' : 0 ≤ h' := le_trans h0 hhh
  have hij : (⌊h⌋).toNat ≤ (⌊h'⌋).toNat :=
    Int.toNat_le_toNat (Int.floor_le_floor hhh)
  have hjn : (⌊h'⌋).toNat < xs.length := toNatFloor_lt_of_le h0' hub
  rcases eq_or_lt_of_le hij with heq | hlt
  · unfold interpAt
    rw [← heq]
    set a := xs.getD (⌊h⌋).toNat 0 with hadef
    set b := xs.getD ((⌊h⌋).toNat + 1) a with hbdef
    have hab : a ≤ b := by
      by_cases hbn : (⌊h⌋).toNat + 1 < xs.length
      · rw [hadef, hbdef]
        exact sorted_getD_le_getD hs (Nat.le_succ _) hbn 0 a
      · rw [hbdef, List.getD_eq_default _ _ (Nat.le_of_not_lt hbn)]
    nlinarith [mul_le_mul_of_nonneg_right
      (sub_le_sub_right hhh (((⌊h⌋).toNat : ℕ) : ℚ)) (sub_nonneg.mpr hab)]
  · have hsucc : (⌊h⌋).toNat + 1 ≤ (⌊h'⌋).toNat := hlt
    calc interpAt xs h
        ≤ xs.getD ((⌊h⌋).toNat + 1) (xs.getD (⌊h⌋).toNat 0) :=
          interpAt_le_getD_succ hs h0
      _ ≤ xs.getD ((⌊h'⌋).toNat) 0 :=
          sorted_getD_le_getD hs hsucc hjn _ 0
      _ ≤ interpAt xs h' := getD_le_interpAt hs h0'

theorem quantileOf_mono (xs : List ℚ) (hne : xs ≠ []) {p q : ℚ}
    (hp : 0 ≤ p) (hpq : p ≤ q) (hq1 : q ≤ 1) :
    quantileOf xs p ≤ quantileOf xs q := by
  unfold quantileOf
  have hn : 0 < xs.length := List.length_pos.mpr hne
  have hn1 : 0 ≤ (xs.length : ℚ) - 1 := by
    have h1 : (1 : ℚ) ≤ (xs.length : ℚ) := by exact_mod_cast hn
    linarith
  apply interpAt_mono (sortQ_sorted xs)
  · exact mul_nonneg hp hn1
  · exact mul_le_mul_of_nonneg_right hpq hn1
  · rw [sortQ_length]
    calc q * ((xs.length : ℚ) - 1)
        ≤ 1 * ((xs.length : ℚ) - 1) := mul_le_mul_of_nonneg_right hq1 hn1
      _ = (xs.length : ℚ) - 1 := one_mul _

theorem interpAt_const {xs : List ℚ} {v : ℚ} (hc : ∀ x ∈ xs, x = v) {h : ℚ}
    (hn : (⌊h⌋).toNat < xs.length) : interpAt xs h = v := by
  unfold interpAt
  have ha : xs.getD (⌊h⌋).toNat 0 = v := by
    rw [List.getD_eq_get _ _ hn]
    exact hc _ (List.get_mem xs _ hn)
  have hb : xs.getD ((⌊h⌋).toNat + 1) (xs.getD (⌊h⌋).toNat 0) = v := by
    by_cases hbn : (⌊h⌋).toNat + 1 < xs.length
    · rw [List.getD_eq_get _ _ hbn]
      exact hc _ (List.get_mem xs _ hbn)
    · rw [List.getD_eq_default _ _ (Nat.le_of_not_lt hbn)]
      exact ha
  rw [hb, ha]
  ring

theorem quantileOf_const {xs : List ℚ} {v : ℚ} (hne : xs ≠ [])
    (hc : ∀ x ∈ xs, x = v) (p : ℚ) (hp0 : 0 ≤ p) (hp1 : p ≤ 1) :
    quantileOf xs p = v := by
  unfold quantileOf
  have hn : 0 < xs.length := List.length_pos.mpr hne
  have hn1 : 0 ≤ (xs.length : ℚ) - 1 := by
    have h1 : (1 : ℚ) ≤ (xs.length : ℚ) := by exact_mod_cast hn
    linarith
  apply interpAt_const
  · intro x hx
    exact hc x (sortQ_mem.mp hx)
  · rw [sortQ_length]
    apply toNatFloor_lt_of_le (mul_nonneg hp0 hn1)
    calc p * ((xs.length : ℚ) - 1)
        ≤ 1 * ((xs.length : ℚ) - 1) := mul_le_mul_of_nonneg_right hp1 hn1
      _ = (xs.length : ℚ) - 1 := one_mul _

theorem meanQ_const {xs : List ℚ} {v : ℚ} (hne : xs ≠ [])
    (hc : ∀ x ∈ xs, x = v) : meanQ xs = v := by
  unfold meanQ
  rw [List.sum_eq_card_nsmul xs v hc, nsmul_eq_mul]
  have hn : (xs.length : ℚ) ≠ 0 := by
    have h1 : 0 < xs.length := List.length_pos.mpr hne
    exact_mod_cast Nat.pos_iff_ne_zero.mp h1
  field_simp

theorem var?_const {xs : List ℚ} {v : ℚ} (h2 : 2 ≤ xs.length)
    (hc : ∀ x ∈ xs, x = v) : var? xs = some 0 := by
  have hne : xs ≠ [] := by
    intro hx
    rw [hx] at h2
    simp at h2
  unfold var?
  rw [if_neg (by omega)]
  have hz : ∀ x ∈ xs, (x - meanQ xs) ^ 2 = (fun _ : ℚ => (0 : ℚ)) x := by
    intro x hx
    rw [meanQ_const hne hc, hc x hx]
    ring
  rw [List.map_congr_left hz]
  simp

theorem listMax_eq_none_iff {α : Type} [LinearOrder α] {l : List α} :
    listMax l = none ↔ l = [] := by
  cases l <;> simp [listMax]

theorem listMin_eq_none_iff {α : Type} [LinearOrder α] {l : List α} :
    listMin l = none ↔ l = [] := by
  cases l <;> simp [listMin]

theorem listMax_mem {α : Type} [LinearOrder α] {l : List α} {m : α}
    (hm : listMax l = some m) : m ∈ l := by
  induction l generalizing m with
  | nil => simp [listMax] at hm
  | cons x xs ih =>
    unfold listMax at hm
    have hm' := Option.some.inj hm
    cases hx : listMax xs with
    | none =>
      rw [hx] at hm'
      simp at hm'
      exact hm' ▸ List.mem_cons_self x xs
    | some m' =>
      rw [hx] at hm'
      simp at hm'
      rcases max_choice x m' with h | h <;> rw [h] at hm'
      · exact hm' ▸ List.mem_cons_self x xs
      · exact hm' ▸ List.mem_cons_of_mem x (ih hx)

theorem listMin_mem {α : Type} [LinearOrder α] {l : List α} {m : α}
    (hm : listMin l = some m) : m ∈ l := by
  induction l generalizing m with
  | nil => simp [listMin] at hm
  | cons x xs ih =>
    unfold listMin at hm
    have hm' := Option.some.inj hm
    cases hx : listMin xs with
    | none =>
      rw [hx] at hm'
      simp at hm'
      exact hm' ▸ List.mem_cons_self x xs
    | some m' =>
      rw [hx] at hm'
      simp at hm'
      rcases min_choice x m' with h | h <;> rw [h] at hm'
      · exact hm' ▸ List.mem_cons_self x xs
      · exact hm' ▸ List.mem_cons_of_mem x (ih hx)

theorem length_filter_three {α : Type} (p q r : α → Prop)
    [DecidablePred p] [DecidablePred q] [DecidablePred r]
    (hex : ∀ x, (p x ∧ ¬ q x ∧ ¬ r x) ∨ (¬ p x ∧ q x ∧ ¬ r x) ∨
      (¬ p x ∧ ¬ q x ∧ r x)) (l : List α) :
    (l.filter fun x => p x).length + (l.filter fun x => q x).length +
      (l.filter fun x => r x).length = l.length := by
  induction l with
  | nil => simp
  | cons a l ih =>
    rcases hex a with ⟨h1, h2, h3⟩ | ⟨h1, h2, h3⟩ | ⟨h1, h2, h3⟩ <;>
      simp [List.filter_cons, h1, h2, h3] <;> omega

theorem sortByKey_length {α : Type} (k : α → ℚ × ℚ × ℚ) (l : List α) :
    (sortByKey k l).length = l.length :=
  (List.perm_insertionSort _ l).length_eq

theorem sortByKey_eq_nil_iff {α : Type} (k : α → ℚ × ℚ × ℚ) (l : List α) :
    sortByKey k l = [] ↔ l = [] := by
  constructor
  · intro h
    have := sortByKey_length k l
    rw [h] at this
    exact List.length_eq_zero.mp this.symm
  · intro h
    rw [h]
    rfl

theorem exactly_one_slice {α : Type} [LinearOrder α] {lb ub x : α}
    (h : lb < ub) :
    (ub ≤ x ∧ ¬(lb < x ∧ x < ub) ∧ ¬(x ≤ lb)) ∨
    (¬(ub ≤ x) ∧ (lb < x ∧ x < ub) ∧ ¬(x ≤ lb)) ∨
    (¬(ub ≤ x) ∧ ¬(lb < x ∧ x < ub) ∧ (x ≤ lb)) := by
  rcases le_or_lt ub x with h1 | h1
  · refine Or.inl ⟨h1, ?_, ?_⟩
    · rintro ⟨_, h3⟩
      exact absurd h1 (not_le.mpr h3)
    · exact not_le.mpr (lt_of_lt_of_le h h1)
  · rcases le_or_lt x lb with h2 | h2
    · refine Or.inr (Or.inr ⟨not_le.mpr (lt_of_le_of_lt h2 h), ?_, h2⟩)
      rintro ⟨h3, _⟩
      exact absurd h2 (not_le.mpr h3)
    · exact Or.inr (Or.inl ⟨not_le.mpr h1, ⟨h2, h1⟩, not_le.mpr h2⟩)

/-! ## Claims -/

/-- **C5.** A dataset lacking a `points` column makes `clean_hockey_df` fail
with the missing-column error (`KeyError("'points' column not found")`, the
code's realization of the spec's `MissingColumnError`), aborting the run;
a dataset that has the column never triggers this error — cleaning returns
a dataset.  This covers both identical definitions of `clean_hockey_df`
(`exporatory_analysis_1.py` 8–21, `initial_data_wrangling.py` 12–22). -/
theorem missing_points_column (t : RawTable) :
    (t.hasPointsCol = false → clean_hockey_df t = .error .keyError_points) ∧
    (t.hasPointsCol = true → ∃ d, clean_hockey_df t = .ok d) := by
  constructor
  · intro h
    simp [clean_hockey_df, h]
  · intro h
    refine ⟨(t.rows.filter fun r => ! rowIsAllNa r).map cleanRowA, ?_⟩
    simp [clean_hockey_df, h]

/-- Witness for C5 at two concrete tables. -/
theorem missing_points_column_witness :
    clean_hockey_df tNoPoints = .error .keyError_points ∧
    ∃ d, clean_hockey_df tNum = .ok d :=
  ⟨(missing_points_column tNoPoints).1 rfl, (missing_points_column tNum).2 rfl⟩

/-- **C8.** Cleaning is idempotent: if `clean_hockey_df` succeeds on a raw
table, re-running it on the cleaned result (read back as a raw table)
returns the cleaned result unchanged — numeric coercion, `fillna(0)` and
`astype(int)` are all fixed points on an already-cleaned `points` column,
and no cleaned row is all-NaN. -/
theorem cleaning_idempotent (t : RawTable) (d : List Row)
    (h : clean_hockey_df t = .ok d) :
    clean_hockey_df (rawTableOfClean d) = .ok d := by
  unfold clean_hockey_df rawTableOfClean
  simp only [if_pos]
  have h2 : (d.map rawOfClean).filter (fun r => ! rowIsAllNa r) =
      d.map rawOfClean := by
    apply List.filter_eq_self.mpr
    intro a ha
    rcases List.mem_map.mp ha with ⟨r, _, rfl⟩
    simp [rowIsAllNa, rawOfClean, Cell.isNa]
  rw [h2, List.map_map]
  have h3 : ∀ r : Row, (cleanRowA ∘ rawOfClean) r = r := by
    intro r
    simp [cleanRowA, rawOfClean, Cell.toNumeric, Function.comp, pyInt_intCast]
  rw [funext h3]
  simp

/-- Witness for C8 at a concrete one-row table. -/
theorem cleaning_idempotent_witness :
    clean_hockey_df (rawTableOfClean [rowNumClean]) = .ok [rowNumClean] :=
  cleaning_idempotent tNum _ (by decide)

/-- **C9.** The two cleaning policies in the source are not equivalent: on a
dataset whose single row has a `points` value that fails numeric coercion,
the zero-fill variant (`clean_hockey_df`) keeps the row with `points = 0`
while the drop-NaN variant (the cleaning inside `hockey_overview`) drops
it — the cleaned datasets differ (one row versus none). -/
theorem divergent_cleaning_policies :
    clean_hockey_df tBad = .ok [rowBadClean] ∧
    overview_clean tBad = .ok ([] : List RowB) ∧
    ([rowBadClean] : List Row).length ≠ (([] : List RowB)).length := by
  refine ⟨by decide, by decide, by decide⟩

/-- **C10.** Every row produced by `ensure_points_per_season` has
`years_played ≥ 1` (a missing `to_year` falls back to the draft year and
the span is clipped below at 1), so `points_per_season = points /
years_played` divides by a strictly positive number: it satisfies
`points_per_season * years_played = points`. -/
theorem years_played_positive (rows : List SeasonRowIn) (r : SeasonRowOut)
    (hr : r ∈ ensure_points_per_season rows) :
    1 ≤ r.years_played ∧ r.points_per_season * r.years_played = r.points := by
  unfold ensure_points_per_season at hr
  rcases List.mem_filterMap.mp hr with ⟨a, _, hfa⟩
  cases hp : a.points.toNumeric with
  | none => rw [hp] at hfa; simp at hfa
  | some p =>
    cases hy : a.year.toNumeric with
    | none => rw [hp, hy] at hfa; simp at hfa
    | some y =>
      rw [hp, hy] at hfa
      simp only [Option.some.injEq] at hfa
      subst hfa
      constructor
      · exact le_max_right _ 1
      · have hpos : (0 : ℚ) < max (((a.to_year.toNumeric).getD y) - y + 1) 1 :=
          lt_of_lt_of_le one_pos (le_max_right _ 1)
        exact div_mul_cancel₀ p (ne_of_gt hpos)

/-- Witness for C10 at a concrete one-row input. -/
theorem years_played_positive_witness :
    1 ≤ seasonOut.years_played ∧
      seasonOut.points_per_season * seasonOut.years_played = seasonOut.points :=
  years_played_positive [seasonIn] seasonOut
    (by simp [ensure_points_per_season, seasonIn, seasonOut, Cell.toNumeric])

/-- **C1 counterexample.** A dataset with a `points` column whose single
`points` value fails coercion cleans (drop-NaN variant) to the empty
dataset, and `hockey_overview` then *returns* its summary dict with every
statistic NaN (`none`) instead of failing with an `EmptyInputError`: no
such error exists anywhere in the code.  (`points_summary` on an empty
series does stop, but with an accidental `ValueError` raised by
`int(nan)`, not an `EmptyInputError`.) -/
theorem empty_input_counterexample :
    overview_clean tBad = .ok ([] : List RowB) ∧
    overview_summary (([] : List RowB).map RowG.points) =
      { count := 0, mean := none, median := none, variance := none,
        iqr := none, lower_bound := none, upper_bound := none } ∧
    points_summary ([] : List ℤ) = .error .valueError_intOfNaN := by
  refine ⟨by decide, by decide, by decide⟩

/-- **C1 (amended).** What the code does when no valid numeric value remains
after cleaning: the drop-NaN pipeline (`hockey_overview`) returns the
all-NaN summary without raising — the repository defines no
`EmptyInputError` — while the zero-fill `points_summary` raises a
`ValueError` (from `int(nan)` at the median entry), not an
`EmptyInputError`. -/
theorem empty_input_behavior (t : RawTable) (d : List RowB)
    (h1 : overview_clean t = .ok d) (h2 : d = [])
    (pts : List ℤ) (h3 : pts = []) :
    overview_summary (d.map RowG.points) =
      { count := 0, mean := none, median := none, variance := none,
        iqr := none, lower_bound := none, upper_bound := none } ∧
    points_summary pts = .error .valueError_intOfNaN := by
  subst h2
  subst h3
  exact ⟨by decide, by decide⟩

/-- Witness for the amended C1 at the concrete table `tBad`. -/
theorem empty_input_behavior_witness :
    overview_summary (([] : List RowB).map RowG.points) =
      { count := 0, mean := none, median := none, variance := none,
        iqr := none, lower_bound := none, upper_bound := none } ∧
    points_summary ([] : List ℤ) = .error .valueError_intOfNaN :=
  empty_input_behavior tBad [] (by decide) rfl [] rfl

/-- **C2 counterexample.** On the single-element sequence `[5]` (fewer than
two distinct values) the summaries have `variance = NaN` (`none`), not 0:
pandas' sample variance (default `ddof=1`) divides by `n − 1 = 0`.  So the
claim's `variance = 0` (and with it `std_dev = 0`) fails at this input,
although `iqr = 0` and both bounds do collapse to the single value. -/
theorem degenerate_variance_counterexample :
    points_summary [5] =
      .ok { count := 1, mean := some 5, median := 5, variance := none,
            iqr := 0, lower_bound := 5, upper_bound := 5 } ∧
    (overview_summary [5]).variance = none ∧
    (none : Option ℚ) ≠ some 0 := by
  refine ⟨by with_unfolding_all rfl, by with_unfolding_all rfl, by decide⟩

/-- **C2 (amended).** For every non-empty sequence with fewer than 2
distinct values (all elements equal to `v`): `iqr = 0`, the median and both
Tukey bounds collapse to `v`, and — only when the sequence has at least two
elements — `variance = 0` and `std_dev = 0`; for a single-element sequence
the variance (hence the std) is NaN, not 0.  First part:
`points_summary`; second part: the `hockey_overview` summary. -/
theorem degenerate_summary :
    (∀ (pts : List ℤ) (v : ℤ), pts ≠ [] → (∀ x ∈ pts, x = v) →
      ∃ s, points_summary pts = .ok s ∧ s.iqr = 0 ∧ s.median = v ∧
        s.lower_bound = v ∧ s.upper_bound = v ∧
        (2 ≤ pts.length → s.variance = some 0 ∧ std? (toQ pts) = some 0) ∧
        (pts.length = 1 → s.variance = none)) ∧
    (∀ (pts : List ℚ) (v : ℚ), pts ≠ [] → (∀ x ∈ pts, x = v) →
      (overview_summary pts).iqr = some 0 ∧
      (overview_summary pts).median = some v ∧
      (overview_summary pts).lower_bound = some v ∧
      (overview_summary pts).upper_bound = some v ∧
      (2 ≤ pts.length → (overview_summary pts).variance = some 0 ∧
        std? pts = some 0) ∧
      (pts.length = 1 → (overview_summary pts).variance = none)) := by
  constructor
  · intro pts v hne hconst
    have hxne : toQ pts ≠ [] := by
      simpa [toQ] using hne
    have hxconst : ∀ x ∈ toQ pts, x = (v : ℚ) := by
      intro x hx
      rcases List.mem_map.mp hx with ⟨p, hp, rfl⟩
      exact_mod_cast hconst p hp
    have q14 := quantileOf_const hxne hxconst (1/4) (by norm_num) (by norm_num)
    have q12 := quantileOf_const hxne hxconst (1/2) (by norm_num) (by norm_num)
    have q34 := quantileOf_const hxne hxconst (3/4) (by norm_num) (by norm_num)
    have hvv : (v : ℚ) - (v : ℚ) = ((0 : ℤ) : ℚ) := by simp
    have hlow : (v : ℚ) - 3/2 * ((v : ℚ) - (v : ℚ)) = ((v : ℤ) : ℚ) := by simp
    have hupp : (v : ℚ) + 3/2 * ((v : ℚ) - (v : ℚ)) = ((v : ℤ) : ℚ) := by simp
    simp only [points_summary, if_neg hne]
    refine ⟨_, rfl, ?_, ?_, ?_, ?_, ?_, ?_⟩
    · show pyInt _ = 0
      rw [q14, q34, hvv, pyInt_intCast]
    · show pyInt _ = v
      rw [q12, pyInt_intCast]
    · show pyInt _ = v
      rw [q14, q34, hlow, pyInt_intCast]
    · show pyInt _ = v
      rw [q14, q34, hupp, pyInt_intCast]
    · intro h2
      have h2' : 2 ≤ (toQ pts).length := by
        simpa [toQ] using h2
      have hv0 := var?_const h2' hxconst
      constructor
      · exact hv0
      · simp [std?, hv0]
    · intro h1
      show var? _ = none
      have h1' : (toQ pts).length = 1 := by
        simpa [toQ] using h1
      simp [var?, h1']
  · intro pts v hne hconst
    have q14 := quantileOf_const hne hconst (1/4) (by norm_num) (by norm_num)
    have q12 := quantileOf_const hne hconst (1/2) (by norm_num) (by norm_num)
    have q34 := quantileOf_const hne hconst (3/4) (by norm_num) (by norm_num)
    refine ⟨?_, ?_, ?_, ?_, ?_, ?_⟩
    · simp only [overview_summary, quantile?, if_neg hne]
      rw [q14, q34]
      norm_num
    · simp only [overview_summary, quantile?, if_neg hne]
      rw [q12]
    · simp only [overview_summary, quantile?, if_neg hne]
      rw [q14, q34]
      norm_num
    · simp only [overview_summary, quantile?, if_neg hne]
      rw [q14, q34]
      norm_num
    · intro h2
      have hv0 := var?_const h2 hconst
      constructor
      · simp only [overview_summary]
        exact hv0
      · simp [std?, hv0]
    · intro h1
      simp only [overview_summary]
      simp [var?, h1]

/-- Witness for the amended C2 at the concrete sequences `[5, 5]` (and the
singleton case at `[7]`). -/
theorem degenerate_summary_witness :
    (∃ s, points_summary [5, 5] = .ok s ∧ s.iqr = 0 ∧ s.median = 5 ∧
      s.lower_bound = 5 ∧ s.upper_bound = 5 ∧
      (2 ≤ ([5, 5] : List ℤ).length → s.variance = some 0 ∧
        std? (toQ [5, 5]) = some 0) ∧
      (([5, 5] : List ℤ).length = 1 → s.variance = none)) ∧
    ((overview_summary [7]).iqr = some 0 ∧
      (overview_summary [7]).median = some 7 ∧
      (overview_summary [7]).lower_bound = some 7 ∧
      (overview_summary [7]).upper_bound = some 7 ∧
      (2 ≤ ([7] : List ℚ).length → (overview_summary [7]).variance = some 0 ∧
        std? [7] = some 0) ∧
      (([7] : List ℚ).length = 1 → (overview_summary [7]).variance = none)) :=
  ⟨degenerate_summary.1 [5, 5] 5 (by decide) (by decide),
   degenerate_summary.2 [7] 7 (by decide) (by decide)⟩

/-- **C6.** For a non-empty cleaned dataset, the `bottom_nonzero` slice is
empty exactly when every cleaned `points` value is 0.  First part:
`points_groups` (zero-fill pipeline); second part: the `hockey_overview`
slice section (drop-NaN pipeline). -/
theorem bottom_nonzero_iff_all_zero :
    (∀ (d : List Row) (s : SummaryA) (g : GroupsG ℤ), d ≠ [] →
      points_groups d s = .ok g →
      (g.bottom_nonzero = [] ↔ ∀ r ∈ d, r.points = 0)) ∧
    (∀ (d : List RowB) (s : SummaryB), d ≠ [] →
      ((overview_groups d s).bottom_nonzero = [] ↔ ∀ r ∈ d, r.points = 0)) := by
  constructor
  · intro d s g hne hg
    have hptsne : d.map RowG.points ≠ [] := by simpa using hne
    cases hmx : listMax (d.map RowG.points) with
    | none => exact absurd (listMax_eq_none_iff.mp hmx) hptsne
    | some mx =>
      cases hmn : listMin (d.map RowG.points) with
      | none => exact absurd (listMin_eq_none_iff.mp hmn) hptsne
      | some mn =>
        simp only [points_groups, hmx, hmn, Except.ok.injEq] at hg
        subst hg
        show (if (d.map RowG.points).any (fun p => p ≠ 0) then _ else _) = _ ↔ _
        by_cases hz : (d.map RowG.points).any (fun p => p ≠ 0) = true
        · rw [if_pos hz]
          rcases List.any_eq_true.mp hz with ⟨p0, hp0mem, hp0⟩
          have hp0ne : p0 ≠ 0 := by simpa using hp0
          have hfilne : (d.map RowG.points).filter (fun p => p ≠ 0) ≠ [] :=
            List.ne_nil_of_mem (List.mem_filter.mpr ⟨hp0mem, by simpa⟩)
          cases hm0 : listMin ((d.map RowG.points).filter fun p => p ≠ 0) with
          | none => exact absurd (listMin_eq_none_iff.mp hm0) hfilne
          | some m0 =>
            have hm0f := List.mem_filter.mp (listMin_mem hm0)
            have hm0ne : m0 ≠ 0 := by simpa using hm0f.2
            rcases List.mem_map.mp hm0f.1 with ⟨r0, hr0d, hr0p⟩
            simp only [Option.elim]
            constructor
            · intro hempty
              exfalso
              have hmem : r0 ∈ d.filter (fun r => r.points = m0) :=
                List.mem_filter.mpr ⟨hr0d, by simpa using hr0p⟩
              rw [hempty] at hmem
              exact List.not_mem_nil r0 hmem
            · intro hall
              exact absurd (hr0p ▸ hall r0 hr0d) hm0ne
        · rw [if_neg hz]
          constructor
          · intro _ r hr
            by_contra hnz
            exact hz (List.any_eq_true.mpr
              ⟨r.points, List.mem_map_of_mem _ hr, by simpa using hnz⟩)
          · intro _
            trivial
  · intro d s hne
    show ((listMin ((d.map RowG.points).filter fun p => p ≠ 0)).elim _ _ = _) ↔ _
    cases hm0 : listMin ((d.map RowG.points).filter fun p => p ≠ 0) with
    | none =>
      have hfil := listMin_eq_none_iff.mp hm0
      simp only [Option.elim]
      constructor
      · intro _ r hr
        by_contra hnz
        have : r.points ∈ (d.map RowG.points).filter (fun p => p ≠ 0) :=
          List.mem_filter.mpr ⟨List.mem_map_of_mem _ hr, by simpa using hnz⟩
        rw [hfil] at this
        exact List.not_mem_nil _ this
      · intro _
        trivial
    | some m0 =>
      have hm0f := List.mem_filter.mp (listMin_mem hm0)
      have hm0ne : m0 ≠ 0 := by simpa using hm0f.2
      rcases List.mem_map.mp hm0f.1 with ⟨r0, hr0d, hr0p⟩
      simp only [Option.elim]
      constructor
      · intro hempty
        exfalso
        have hmem : r0 ∈ d.filter (fun r => r.points = m0) :=
          List.mem_filter.mpr ⟨hr0d, by simpa using hr0p⟩
        rw [hempty] at hmem
        exact List.not_mem_nil r0 hmem
      · intro hall
        exact absurd (hr0p ▸ hall r0 hr0d) hm0ne

/-- Witness for C6 at concrete one-row datasets (points value 50 ≠ 0, so
`bottom_nonzero` is non-empty and both sides of the iff are false). -/
theorem bottom_nonzero_iff_all_zero_witness :
    (gEx.bottom_nonzero = [] ↔ ∀ r ∈ [rowNumClean], r.points = 0) ∧
    ((overview_groups [rowNumB] sExB).bottom_nonzero = [] ↔
      ∀ r ∈ [rowNumB], r.points = 0) :=
  ⟨bottom_nonzero_iff_all_zero.1 [rowNumClean] sEx gEx (by decide)
      (by with_unfolding_all rfl),
   bottom_nonzero_iff_all_zero.2 [rowNumB] sExB (by decide)⟩

/-- **C7.** For a non-empty cleaned dataset the `top_players` (ties at the
global maximum) and `bottom_players` (ties at the global minimum) slices
are both non-empty.  First part: `points_groups`; second part: the
`hockey_overview` slice section. -/
theorem top_bottom_players_nonempty :
    (∀ (d : List Row) (s : SummaryA), d ≠ [] →
      ∃ g, points_groups d s = .ok g ∧
        g.top_players ≠ [] ∧ g.bottom_players ≠ []) ∧
    (∀ (d : List RowB) (s : SummaryB), d ≠ [] →
      (overview_groups d s).top_players ≠ [] ∧
      (overview_groups d s).bottom_players ≠ []) := by
  constructor
  · intro d s hne
    have hptsne : d.map RowG.points ≠ [] := by simpa using hne
    cases hmx : listMax (d.map RowG.points) with
    | none => exact absurd (listMax_eq_none_iff.mp hmx) hptsne
    | some mx =>
      cases hmn : listMin (d.map RowG.points) with
      | none => exact absurd (listMin_eq_none_iff.mp hmn) hptsne
      | some mn =>
        cases hgv : points_groups d s with
        | error e =>
          exfalso
          simp only [points_groups, hmx, hmn] at hgv
          exact Except.noConfusion hgv
        | ok g =>
          refine ⟨g, rfl, ?_, ?_⟩
          · simp only [points_groups, hmx, hmn, Except.ok.injEq] at hgv
            subst hgv
            rcases List.mem_map.mp (listMax_mem hmx) with ⟨r0, hr0d, hr0p⟩
            exact List.ne_nil_of_mem
              (List.mem_filter.mpr ⟨hr0d, by simpa using hr0p⟩)
          · simp only [points_groups, hmx, hmn, Except.ok.injEq] at hgv
            subst hgv
            rcases List.mem_map.mp (listMin_mem hmn) with ⟨r0, hr0d, hr0p⟩
            exact List.ne_nil_of_mem
              (List.mem_filter.mpr ⟨hr0d, by simpa using hr0p⟩)
  · intro d s hne
    have hptsne : d.map RowG.points ≠ [] := by simpa using hne
    constructor
    · cases hmx : listMax (d.map RowG.points) with
      | none => exact absurd (listMax_eq_none_iff.mp hmx) hptsne
      | some mx =>
        show (listMax (d.map RowG.points)).elim _ _ ≠ _
        rw [hmx]
        rcases List.mem_map.mp (listMax_mem hmx) with ⟨r0, hr0d, hr0p⟩
        exact List.ne_nil_of_mem
          (List.mem_filter.mpr ⟨hr0d, by simpa using hr0p⟩)
    · cases hmn : listMin (d.map RowG.points) with
      | none => exact absurd (listMin_eq_none_iff.mp hmn) hptsne
      | some mn =>
        show (listMin (d.map RowG.points)).elim _ _ ≠ _
        rw [hmn]
        rcases List.mem_map.mp (listMin_mem hmn) with ⟨r0, hr0d, hr0p⟩
        exact List.ne_nil_of_mem
          (List.mem_filter.mpr ⟨hr0d, by simpa using hr0p⟩)

/-- Witness for C7 at concrete one-row datasets. -/
theorem top_bottom_players_nonempty_witness :
    (∃ g, points_groups [rowNumClean] sEx = .ok g ∧
      g.top_players ≠ [] ∧ g.bottom_players ≠ []) ∧
    ((overview_groups [rowNumB] sExB).top_players ≠ [] ∧
      (overview_groups [rowNumB] sExB).bottom_players ≠ []) :=
  ⟨top_bottom_players_nonempty.1 [rowNumClean] sEx (by decide),
   top_bottom_players_nonempty.2 [rowNumB] sExB (by decide)⟩

/-- **C3.** For every non-empty numeric sequence, the `hockey_overview`
summary (exact float arithmetic, no `int` casts) satisfies
`lower_bound ≤ Q1 ≤ median ≤ Q3 ≤ upper_bound` whenever `IQR > 0`, with
`lower_bound = Q1 − 1.5·IQR` and `upper_bound = Q3 + 1.5·IQR` exactly as
the claim defines them (the chain only needs `IQR ≥ 0`, which always
holds; the hypothesis `0 < i` mirrors the claim). -/
theorem bounds_ordering (pts : List ℚ) (hne : pts ≠ []) (i : ℚ)
    (hiqr : (overview_summary pts).iqr = some i) (hpos : 0 < i) :
    (overview_summary pts).lower_bound =
      some (quantileOf pts (1/4) - 3/2 * i) ∧
    (overview_summary pts).median = some (quantileOf pts (1/2)) ∧
    (overview_summary pts).upper_bound =
      some (quantileOf pts (3/4) + 3/2 * i) ∧
    quantileOf pts (1/4) - 3/2 * i ≤ quantileOf pts (1/4) ∧
    quantileOf pts (1/4) ≤ quantileOf pts (1/2) ∧
    quantileOf pts (1/2) ≤ quantileOf pts (3/4) ∧
    quantileOf pts (3/4) ≤ quantileOf pts (3/4) + 3/2 * i := by
  have hi : i = quantileOf pts (3/4) - quantileOf pts (1/4) := by
    simp only [overview_summary, quantile?, if_neg hne, Option.some.injEq]
      at hiqr
    exact hiqr.symm
  have h14_12 := quantileOf_mono pts hne
    (by norm_num : (0:ℚ) ≤ 1/4) (by norm_num : (1:ℚ)/4 ≤ 1/2) (by norm_num)
  have h12_34 := quantileOf_mono pts hne
    (by norm_num : (0:ℚ) ≤ 1/2) (by norm_num : (1:ℚ)/2 ≤ 3/4) (by norm_num)
  refine ⟨?_, ?_, ?_, by linarith, h14_12, h12_34, by linarith⟩
  · simp only [overview_summary, quantile?, if_neg hne]
    rw [hi]
  · simp only [overview_summary, quantile?, if_neg hne]
  · simp only [overview_summary, quantile?, if_neg hne]
    rw [hi]

/-- Witness for C3 at the spec's worked example `[0, 2, 2, 5, 100]`
(`Q1 = 2`, `median = 2`, `Q3 = 5`, `IQR = 3`). -/
theorem bounds_ordering_witness :
    (overview_summary ptsEx).lower_bound =
      some (quantileOf ptsEx (1/4) - 3/2 * 3) ∧
    (overview_summary ptsEx).median = some (quantileOf ptsEx (1/2)) ∧
    (overview_summary ptsEx).upper_bound =
      some (quantileOf ptsEx (3/4) + 3/2 * 3) ∧
    quantileOf ptsEx (1/4) - 3/2 * 3 ≤ quantileOf ptsEx (1/4) ∧
    quantileOf ptsEx (1/4) ≤ quantileOf ptsEx (1/2) ∧
    quantileOf ptsEx (1/2) ≤ quantileOf ptsEx (3/4) ∧
    quantileOf ptsEx (3/4) ≤ quantileOf ptsEx (3/4) + 3/2 * 3 :=
  bounds_ordering ptsEx (by decide) 3 (by with_unfolding_all rfl)
    (by norm_num)

/-- **C4.** When the summary's IQR is positive, the upper-outlier slice, the
records strictly between the Tukey bounds, and the lower-outlier slice
partition the cleaned dataset: their counts sum to the total.  First part:
`points_groups` with the integer-cast bounds of `points_summary` (a
positive truncated IQR forces the true IQR ≥ 1, so the truncated bounds
still satisfy `lower_bound < upper_bound`).  Second part: the
`hockey_overview` slices with its exact float bounds. -/
theorem outlier_partition :
    (∀ (d : List Row) (s : SummaryA) (g : GroupsG ℤ),
      points_summary (d.map RowG.points) = .ok s → 0 < s.iqr →
      points_groups d s = .ok g →
      g.upper_players.length +
        (d.filter fun r =>
          s.lower_bound < r.points ∧ r.points < s.upper_bound).length +
        g.lower_players.length = d.length) ∧
    (∀ (d : List RowB) (i lb ub : ℚ),
      (overview_summary (d.map RowG.points)).iqr = some i → 0 < i →
      (overview_summary (d.map RowG.points)).lower_bound = some lb →
      (overview_summary (d.map RowG.points)).upper_bound = some ub →
      (overview_groups d
          (overview_summary (d.map RowG.points))).upper_players.length +
        (d.filter fun r => lb < r.points ∧ r.points < ub).length +
        (overview_groups d
          (overview_summary (d.map RowG.points))).lower_players.length
        = d.length) := by
  constructor
  · intro d s g hs hiqr hg
    have hptsne : d.map RowG.points ≠ [] := by
      intro hnil
      simp only [points_summary, if_pos hnil] at hs
      exact Except.noConfusion hs
    have hqne : toQ (d.map RowG.points) ≠ [] := by
      simpa [toQ] using hptsne
    simp only [points_summary, if_neg hptsne, Except.ok.injEq] at hs
    subst hs
    dsimp only at hiqr ⊢
    have hr0 : (0:ℚ) ≤ quantileOf (toQ (d.map RowG.points)) (3/4) -
        quantileOf (toQ (d.map RowG.points)) (1/4) := by
      have := quantileOf_mono (toQ (d.map RowG.points)) hqne
        (by norm_num : (0:ℚ) ≤ 1/4) (by norm_num : (1:ℚ)/4 ≤ 3/4)
        (by norm_num)
      linarith
    have hr1 : (1:ℚ) ≤ quantileOf (toQ (d.map RowG.points)) (3/4) -
        quantileOf (toQ (d.map RowG.points)) (1/4) :=
      one_le_of_pyInt_pos hr0 hiqr
    have hlbq := pyInt_lt_add_one (quantileOf (toQ (d.map RowG.points)) (1/4) -
      3/2 * (quantileOf (toQ (d.map RowG.points)) (3/4) -
        quantileOf (toQ (d.map RowG.points)) (1/4)))
    have hubq := sub_one_lt_pyInt (quantileOf (toQ (d.map RowG.points)) (3/4) +
      3/2 * (quantileOf (toQ (d.map RowG.points)) (3/4) -
        quantileOf (toQ (d.map RowG.points)) (1/4)))
    have hlbub : pyInt (quantileOf (toQ (d.map RowG.points)) (1/4) -
        3/2 * (quantileOf (toQ (d.map RowG.points)) (3/4) -
          quantileOf (toQ (d.map RowG.points)) (1/4))) <
        pyInt (quantileOf (toQ (d.map RowG.points)) (3/4) +
          3/2 * (quantileOf (toQ (d.map RowG.points)) (3/4) -
            quantileOf (toQ (d.map RowG.points)) (1/4))) := by
      have hq : ((pyInt (quantileOf (toQ (d.map RowG.points)) (1/4) -
          3/2 * (quantileOf (toQ (d.map RowG.points)) (3/4) -
            quantileOf (toQ (d.map RowG.points)) (1/4))) : ℤ) : ℚ) <
          ((pyInt (quantileOf (toQ (d.map RowG.points)) (3/4) +
            3/2 * (quantileOf (toQ (d.map RowG.points)) (3/4) -
              quantileOf (toQ (d.map RowG.points)) (1/4))) : ℤ) : ℚ) := by
        linarith
      exact_mod_cast hq
    cases hmx : listMax (d.map RowG.points) with
    | none => exact absurd (listMax_eq_none_iff.mp hmx) hptsne
    | some mx =>
      cases hmn : listMin (d.map RowG.points) with
      | none => exact absurd (listMin_eq_none_iff.mp hmn) hptsne
      | some mn =>
        simp only [points_groups, hmx, hmn, Except.ok.injEq] at hg
        subst hg
        dsimp only
        rw [sortByKey_length, sortByKey_length]
        exact length_filter_three _ _ _
          (fun r : Row => exactly_one_slice hlbub) d
  · intro d i lb ub hiqr hpos hlb hub
    have hptsne : d.map RowG.points ≠ [] := by
      intro hnil
      rw [hnil] at hiqr
      simp [overview_summary, quantile?] at hiqr
    simp only [overview_summary, quantile?, if_neg hptsne,
      Option.some.injEq] at hiqr hlb hub
    subst hiqr
    subst hlb
    subst hub
    have hlbub : quantileOf (d.map RowG.points) (1/4) -
        3/2 * (quantileOf (d.map RowG.points) (3/4) -
          quantileOf (d.map RowG.points) (1/4)) <
        quantileOf (d.map RowG.points) (3/4) +
          3/2 * (quantileOf (d.map RowG.points) (3/4) -
            quantileOf (d.map RowG.points) (1/4)) := by
      linarith
    have hub' : (overview_summary (d.map RowG.points)).upper_bound =
        some (quantileOf (d.map RowG.points) (3/4) +
          3/2 * (quantileOf (d.map RowG.points) (3/4) -
            quantileOf (d.map RowG.points) (1/4))) := by
      simp only [overview_summary, quantile?, if_neg hptsne]
    have hlb' : (overview_summary (d.map RowG.points)).lower_bound =
        some (quantileOf (d.map RowG.points) (1/4) -
          3/2 * (quantileOf (d.map RowG.points) (3/4) -
            quantileOf (d.map RowG.points) (1/4))) := by
      simp only [overview_summary, quantile?, if_neg hptsne]
    simp only [overview_groups, hub', hlb', geNaN, leNaN]
    rw [sortByKey_length, sortByKey_length]
    exact length_filter_three _ _ _
      (fun r : RowB => exactly_one_slice hlbub) d

/-- Witness for C4 at the spec's worked example: groups `[0, 2, 2, 5, 100]`
split as 1 upper outlier + 4 between + 0 lower outliers. -/
theorem outlier_partition_witness :
    (gEx5.upper_players.length +
      (dEx.filter fun r =>
        sEx5.lower_bound < r.points ∧ r.points < sEx5.upper_bound).length +
      gEx5.lower_players.length = dEx.length) ∧
    ((overview_groups dExB
        (overview_summary (dExB.map RowG.points))).upper_players.length +
      (dExB.filter fun r => (-5/2 : ℚ) < r.points ∧ r.points < 19/2).length +
      (overview_groups dExB
        (overview_summary (dExB.map RowG.points))).lower_players.length
      = dExB.length) :=
  ⟨outlier_partition.1 dEx sEx5 gEx5 (by with_unfolding_all rfl) (by decide)
      (by with_unfolding_all rfl),
   outlier_partition.2 dExB 3 (-5/2) (19/2) (by with_unfolding_all rfl)
      (by norm_num) (by with_unfolding_all rfl) (by with_unfolding_all rfl)⟩

end PuckInsights
